import Mathlib

/-!
Verification development for the Call-Me-Reminder repository.

The frontend (reminder-form, reminder-card, reminder-list, lib/api) is
embedded directly from the TypeScript source.  JS strings are modelled as
`List Char`; `\d` in a JS regex is exactly the ASCII digits, matching
`Char.isDigit`.  The backend (FastAPI + APScheduler + repository) is not
part of the shipped sources, so its repository and dispatch operations are
modelled from the specification where a claim needs them; each such
definition is marked `Modelled from the spec:` in its doc comment.
-/

namespace CallMeReminder

/-- Reminder status, from the `Reminder` interface in `lib/api.ts`:
`"scheduled" | "completed" | "failed"`. -/
inductive Status where
  | scheduled
  | completed
  | failed
deriving DecidableEq, Repr

/-- The reminder record, from the `Reminder` interface in `lib/api.ts`.
`scheduled_at` is the stored instant; for the backend-facing claims it is
modelled as an integer timestamp (the frontend's string form is handled
separately by `FrontendReminder`). -/
structure Reminder where
  id : Nat
  title : String
  message : String
  phone_number : String
  scheduled_at : Int
  timezone : String
  status : Status
  call_id : Option String
  error_message : Option String
  created_at : Int
  updated_at : Int
deriving DecidableEq, Repr

/-- The reminder record as the frontend components see it
(`lib/api.ts`): `scheduled_at` is an ISO datetime string. -/
structure FrontendReminder where
  id : Nat
  title : String
  message : String
  phone_number : String
  scheduled_at : String
  timezone : String
  status : Status
  call_id : Option String
  error_message : Option String
deriving DecidableEq, Repr

/-! Section: `parseAsUTC` (reminder-form.tsx and reminder-card.tsx, identical copies).

```ts
function parseAsUTC(dateString: string): Date {
  if (!dateString.endsWith("Z") && !dateString.includes("+")) {
    return new Date(dateString + "Z");
  }
  return new Date(dateString);
}
```
The string-level transformation is embedded exactly; the `Date`
constructor itself is kept abstract (a `String → Int` parameter) where a
claim needs the parsed instant. -/

/-- The string handed to `new Date(...)` by `parseAsUTC`.
`endsWith("Z")` is "the last character is `'Z'`" and `includes("+")` is
"some character is `'+'`", written at the character level. -/
def parseAsUTCString (s : String) : String :=
  if !(decide (s.data.getLast? = some 'Z')) && !(s.data.contains '+') then
    s ++ "Z"
  else s

/-! Section: phone helpers (reminder-form.tsx). -/

/-- Embedding of `parsePhoneToE164` from reminder-form.tsx:
strip every non-digit (`replace(/\D/g, "")`) and prefix `+`;
the empty digit string yields `""`. -/
def parsePhoneToE164 (formatted : List Char) : List Char :=
  let digits := formatted.filter Char.isDigit
  if digits = [] then [] else '+' :: digits

/-- Embedding of `formatPhoneDisplay` from reminder-form.tsx. -/
def formatPhoneDisplay (value : List Char) : List Char :=
  let digits := value.filter Char.isDigit
  if digits.length = 0 then ['+']
  else if digits.length ≤ 1 then '+' :: digits
  else if digits.length ≤ 4 then '+' :: digits.take 1 ++ [' '] ++ digits.drop 1
  else if digits.length ≤ 7 then
    '+' :: digits.take 1 ++ [' ', '('] ++ (digits.drop 1).take 3 ++ [')', ' ']
      ++ digits.drop 4
  else
    '+' :: digits.take 1 ++ [' ', '('] ++ (digits.drop 1).take 3 ++ [')', ' ']
      ++ (digits.drop 4).take 3 ++ ['-'] ++ (digits.drop 7).take 4

/-- Matcher for the regex `^\+[1-9]\d{6,14}$` used by `validateField` for
`phone_number`. -/
def e164Valid : List Char → Bool
  | '+' :: c :: rest =>
      decide ('1' ≤ c ∧ c ≤ '9') && rest.all Char.isDigit
        && decide (6 ≤ rest.length ∧ rest.length ≤ 14)
  | _ => false

/-- The `phone_number` branch of `validateField` in reminder-form.tsx:
`some err` is a validation error, `none` means the field is valid. -/
def validatePhoneField (value : List Char) : Option (List Char) :=
  let e164 := parsePhoneToE164 value
  if e164 = [] ∨ e164 = ['+'] then some ("Phone number is required".toList)
  else if e164Valid e164 = false then some ("Enter a valid phone number".toList)
  else none

/-- Embedding of `handleSubmit` in reminder-form.tsx: it submits only when `validateForm`
reports no error in any field, sending
`parsePhoneToE164(phoneDisplay)` as the phone number.  The validations of
the non-phone fields (title, message, date, time) are abstracted into the
flag `othersOk`; the phone check is embedded exactly. -/
def submitPhone (othersOk : Bool) (phoneDisplay : List Char) :
    Option (List Char) :=
  if othersOk && (validatePhoneField phoneDisplay).isNone then
    some (parsePhoneToE164 phoneDisplay)
  else none

/-! Section: `maskPhone` (reminder-card.tsx).

```ts
function maskPhone(phone: string): string {
  if (phone.length <= 6) return phone;
  return phone.slice(0, -4).replace(/\d(?=.{4})/g, "•") + phone.slice(-4);
}
```
`.` in a JS regex without the `s` flag matches every character except the
line terminators `\n`, `\r`, U+2028 and U+2029. -/

/-- A character matched by `.` in a JS regex (no `s` flag). -/
def jsDot (c : Char) : Bool :=
  c ≠ '\n' && c ≠ '\r' && c ≠ '\u2028' && c ≠ '\u2029'

/-- Embedding of `replace(/\d(?=.{4})/g, "•")`: every digit followed (inside the same
string) by at least four `.`-matchable characters becomes `•`. -/
def maskLeading : List Char → List Char
  | [] => []
  | c :: rest =>
      (if c.isDigit && decide (4 ≤ rest.length) && (rest.take 4).all jsDot then '•' else c)
        :: maskLeading rest

/-- Embedding of `maskPhone` from reminder-card.tsx; `slice(0, -4)` is
`take (length - 4)` and `slice(-4)` is `drop (length - 4)` on a string
longer than 6. -/
def maskPhone (phone : List Char) : List Char :=
  if phone.length ≤ 6 then phone
  else maskLeading (phone.take (phone.length - 4)) ++ phone.drop (phone.length - 4)

/-! Section: the countdown of reminder-card.tsx.

```ts
const utcDate = parseAsUTC(reminder.scheduled_at);
const displayDate = toZonedTime(utcDate, reminder.timezone);
const countdown = useCountdown(utcDate, reminder.status === "scheduled");
```
`useCountdown` shows nothing when disabled, the string `"Processing..."`
once `isPast(targetDate)` holds (date-fns: target strictly before now),
and otherwise the remaining distance to `targetDate`. -/

/-- State of the countdown a `ReminderCard` shows, as a function of an
abstract datetime parser `parseDate` (the JS `Date` constructor) and the
current instant `now`: `none` when the countdown is disabled
(status is not `scheduled`), `some none` for `"Processing..."`
(target in the past), `some (some d)` for a remaining distance `d`. -/
def countdownState (parseDate : String → Int) (now : Int)
    (r : FrontendReminder) : Option (Option Int) :=
  if r.status = Status.scheduled then
    let target := parseDate (parseAsUTCString r.scheduled_at)
    if target < now then some none else some (some (target - now))
  else none

/-- Actions a `ReminderCard` offers. -/
inductive CardAction where
  | edit
  | delete
deriving DecidableEq, Repr

/-- Action row of `ReminderCard` (reminder-card.tsx): the Edit button is
rendered only under `reminder.status === "scheduled"`; the Delete button
is always rendered. -/
def cardActions (r : FrontendReminder) : List CardAction :=
  (if r.status = Status.scheduled then [CardAction.edit] else []) ++ [CardAction.delete]

/-! Section: repository operations and the dispatch unit.

The backend (`backend/scheduler.py`, `backend/main.py`, `backend/models.py`)
is not among the shipped sources; these operations are modelled from the
specification (sections 4.1 to 4.3 and 7 of the design document). -/

/-- Modelled from the spec: `MarkCompleted(id, callId)` of the missing
backend repository (`backend/scheduler.py` / `backend/models.py`), acting
on one record — atomically sets `status = Completed`, stores the provider
call id, clears `errorMessage`, bumps `updatedAt`; a no-op when the
record's status is no longer `Scheduled` at write time. -/
def applyMarkCompleted (callId : String) (now : Int) (r : Reminder) : Reminder :=
  if r.status = Status.scheduled then
    { r with status := Status.completed, call_id := some callId,
             error_message := none, updated_at := now }
  else r

/-- Modelled from the spec: `MarkFailed(id, reason)` of the missing
backend repository — atomically sets `status = Failed` and
`errorMessage = reason`, bumps `updatedAt`, with the same
no-op-unless-`Scheduled` conditional-write semantics. -/
def applyMarkFailed (reason : String) (now : Int) (r : Reminder) : Reminder :=
  if r.status = Status.scheduled then
    { r with status := Status.failed, error_message := some reason,
             updated_at := now }
  else r

/-- Modelled from the spec: the external edit operation (`PUT
/reminders/id` of the missing backend) re-entering `Scheduled` — it may
change the schedule, clears `errorMessage` (spec section 3: cleared
whenever a reminder re-enters `Scheduled`) and leaves no stale provider
call id (spec section 3: `callId` is set only on a successful dispatch,
`null` otherwise). -/
def applyEditReschedule (newScheduledAt : Int) (now : Int) (r : Reminder) : Reminder :=
  { r with scheduled_at := newScheduledAt, status := Status.scheduled,
           call_id := none, error_message := none, updated_at := now }

/-- Field invariants of the data model (spec section 3). -/
def fieldInvariants (r : Reminder) : Prop :=
  (r.status = Status.completed → r.call_id ≠ none ∧ r.error_message = none)
  ∧ (r.status = Status.failed → r.call_id = none ∧ r.error_message ≠ none)
  ∧ (r.status = Status.scheduled → r.call_id = none ∧ r.error_message = none)

instance (r : Reminder) : Decidable (fieldInvariants r) := by
  unfold fieldInvariants; infer_instance

/-- Provider credentials (`VAPI_API_KEY`, `VAPI_PHONE_NUMBER_ID`). -/
structure VapiConfig where
  apiKey : String
  phoneNumberId : String
deriving DecidableEq, Repr

/-- Failure reason stored when the provider configuration is absent
(README: reminders are marked Failed "with an error message about
missing configuration"). -/
def configMissingMessage : String :=
  "Vapi configuration missing: VAPI_API_KEY and VAPI_PHONE_NUMBER_ID are not set"

/-- Modelled from the spec: `PlaceCall` of the missing backend
(`backend/scheduler.py`), section 4.2 — with no configuration it returns a
deterministic configuration failure without touching the network; with
configuration it performs one network attempt, modelled by the abstract
transport `net`.  The second component records whether a network call was
attempted. -/
def placeCall (cfg : Option VapiConfig) (net : String → String → Except String String)
    (phone message : String) : Except String String × Bool :=
  match cfg with
  | none => (Except.error configMissingMessage, false)
  | some _ => (net phone message, true)

/-- Modelled from the spec: the Dispatch Unit (section 4.3) for one due
reminder — place the call, then `MarkCompleted` on success or `MarkFailed`
on failure; it is a total function, so no error escapes to the scheduler
loop.  Returns the updated record and whether the network was used. -/
def dispatchOne (cfg : Option VapiConfig) (net : String → String → Except String String)
    (now : Int) (r : Reminder) : Reminder × Bool :=
  match placeCall cfg net r.phone_number r.message with
  | (Except.ok callId, used) => (applyMarkCompleted callId now r, used)
  | (Except.error reason, used) => (applyMarkFailed reason now r, used)

/-- Due relation used by `findDue` (spec section 4.1 and glossary):
status is `Scheduled` and `scheduledAt ≤ now`. -/
def isDue (now : Int) (r : Reminder) : Prop :=
  r.status = Status.scheduled ∧ r.scheduled_at ≤ now

instance (now : Int) (r : Reminder) : Decidable (isDue now r) := by
  unfold isDue; infer_instance

/-- Ordering key of `FindDue`: ascending `scheduledAt`. -/
def dueLE (a b : Reminder) : Prop := a.scheduled_at ≤ b.scheduled_at

instance : DecidableRel dueLE := fun a b => by unfold dueLE; infer_instance

instance : IsTotal Reminder dueLE := ⟨fun a b => Int.le_total a.scheduled_at b.scheduled_at⟩

instance : IsTrans Reminder dueLE := ⟨fun _ _ _ h h' => le_trans h h'⟩

/-- Modelled from the spec: `FindDue(now)` of the missing backend
repository (section 4.1) — all reminders with `status = Scheduled` and
`scheduledAt ≤ now`, ordered by `scheduledAt` ascending. -/
def findDue (now : Int) (store : List Reminder) : List Reminder :=
  List.insertionSort dueLE (store.filter (fun r => decide (isDue now r)))

/-! Section: concrete sample records used by the closed witnesses. -/

/-- Sample scheduled reminder (backend form), due at instant 2. -/
def sampleRem : Reminder :=
  { id := 1, title := "Doctor", message := "Bring the card",
    phone_number := "+15551234567", scheduled_at := 2, timezone := "America/New_York",
    status := Status.scheduled, call_id := none, error_message := none,
    created_at := 0, updated_at := 0 }

/-- Sample scheduled reminder due at instant 1. -/
def sampleRemB : Reminder :=
  { sampleRem with id := 2, scheduled_at := 1 }

/-- Sample completed reminder. -/
def sampleRemDone : Reminder :=
  { sampleRem with status := Status.completed, call_id := some "abc" }

/-- Sample scheduled reminder as the frontend sees it. -/
def sampleCard : FrontendReminder :=
  { id := 1, title := "Doctor", message := "Bring the card",
    phone_number := "+15551234567", scheduled_at := "2025-01-01T14:00:00",
    timezone := "America/New_York", status := Status.scheduled,
    call_id := none, error_message := none }

/-- Sample failed reminder as the frontend sees it. -/
def sampleCardFailed : FrontendReminder :=
  { sampleCard with
    status := Status.failed,
    error_message := some "timeout" }

/-! Section: claim theorems. -/

/-- C1: for every reminder record satisfying the section-3 field
invariants, `Completed` implies a non-null `callId` and a null
`errorMessage`, `Failed` implies a null `callId` and a non-null
`errorMessage`, and each status transition (`MarkCompleted`, `MarkFailed`,
edit back to `Scheduled`) preserves the field invariants. -/
theorem markOps_preserve_fieldInvariants (r : Reminder) (cid reason : String)
    (newAt t : Int) (h : fieldInvariants r) :
    (r.status = Status.completed → r.call_id ≠ none ∧ r.error_message = none)
    ∧ (r.status = Status.failed → r.call_id = none ∧ r.error_message ≠ none)
    ∧ fieldInvariants (applyMarkCompleted cid t r)
    ∧ fieldInvariants (applyMarkFailed reason t r)
    ∧ fieldInvariants (applyEditReschedule newAt t r) := by
  obtain ⟨h1, h2, h3⟩ := h
  refine ⟨h1, h2, ?_, ?_, ?_⟩ <;>
    cases hs : r.status <;>
      simp_all [applyMarkCompleted, applyMarkFailed, applyEditReschedule, fieldInvariants]

/-- Closed witness for `markOps_preserve_fieldInvariants` at a concrete
scheduled record. -/
theorem markOps_preserve_fieldInvariants_witness :
    fieldInvariants (applyMarkCompleted "abc" 5 sampleRem)
    ∧ fieldInvariants (applyMarkFailed "timeout" 5 sampleRem)
    ∧ fieldInvariants (applyEditReschedule 9 5 sampleRem) := by
  have h := markOps_preserve_fieldInvariants sampleRem "abc" "timeout" 9 5 (by decide)
  exact ⟨h.2.2.1, h.2.2.2.1, h.2.2.2.2⟩

/-- C2: `MarkCompleted` and `MarkFailed` are no-ops when the record is no
longer `Scheduled`, so a second invocation of either operation (in any
combination) after a first one changes nothing: exactly one effective
state change, and `callId` / `errorMessage` are never corrupted by the
second call. -/
theorem markOps_idempotent (r : Reminder) (cid cid' reason reason' : String)
    (t t' : Int) :
    (r.status ≠ Status.scheduled →
      applyMarkCompleted cid t r = r ∧ applyMarkFailed reason t r = r)
    ∧ applyMarkCompleted cid' t' (applyMarkCompleted cid t r) = applyMarkCompleted cid t r
    ∧ applyMarkFailed reason' t' (applyMarkFailed reason t r) = applyMarkFailed reason t r
    ∧ applyMarkFailed reason' t' (applyMarkCompleted cid t r) = applyMarkCompleted cid t r
    ∧ applyMarkCompleted cid' t' (applyMarkFailed reason t r) = applyMarkFailed reason t r := by
  cases hs : r.status <;>
    simp_all [applyMarkCompleted, applyMarkFailed]

/-- Closed witness for `markOps_idempotent`: a second write after a
successful `MarkCompleted` is discarded, and both writes are no-ops on an
already-completed record. -/
theorem markOps_idempotent_witness :
    applyMarkCompleted "c2" 7 (applyMarkCompleted "c1" 5 sampleRem)
      = applyMarkCompleted "c1" 5 sampleRem
    ∧ applyMarkFailed "late" 7 (applyMarkCompleted "c1" 5 sampleRem)
      = applyMarkCompleted "c1" 5 sampleRem
    ∧ applyMarkCompleted "c3" 7 sampleRemDone = sampleRemDone
    ∧ applyMarkFailed "late" 7 sampleRemDone = sampleRemDone := by
  have h1 := markOps_idempotent sampleRem "c1" "c2" "x" "late" 5 7
  have h2 := markOps_idempotent sampleRemDone "c3" "c" "late" "y" 7 9
  exact ⟨h1.2.1, h1.2.2.2.1, (h2.1 (by decide)).1, (h2.1 (by decide)).2⟩

/-- C3: with no provider configuration, dispatching a due reminder makes
no network attempt and deterministically marks it `Failed` with the
configuration error message; the reminder does not stay `Scheduled`, and
the dispatch is a total function, so nothing escapes to the scheduler
loop. -/
theorem dispatch_missingConfig_fails (net : String → String → Except String String)
    (now : Int) (r : Reminder) (h : r.status = Status.scheduled) :
    (dispatchOne none net now r).1.status = Status.failed
    ∧ (dispatchOne none net now r).1.error_message = some configMissingMessage
    ∧ (dispatchOne none net now r).2 = false
    ∧ (dispatchOne none net now r).1.status ≠ Status.scheduled := by
  simp [dispatchOne, placeCall, applyMarkFailed, h]

/-- Closed witness for `dispatch_missingConfig_fails` at a concrete
scheduled reminder, with a transport that would succeed if it were ever
consulted. -/
theorem dispatch_missingConfig_fails_witness :
    (dispatchOne none (fun _ _ => Except.ok "id") 5 sampleRem).1.status = Status.failed
    ∧ (dispatchOne none (fun _ _ => Except.ok "id") 5 sampleRem).1.error_message
        = some configMissingMessage
    ∧ (dispatchOne none (fun _ _ => Except.ok "id") 5 sampleRem).2 = false := by
  have h := dispatch_missingConfig_fails (fun _ _ => Except.ok "id") 5 sampleRem (by decide)
  exact ⟨h.1, h.2.1, h.2.2.1⟩

/-- C6: the countdown state is independent of the reminder's timezone
field — two reminders differing only in `timezone` produce the same
due/remaining computation, which is derived solely from `scheduled_at`
parsed as UTC. -/
theorem countdown_independent_of_timezone (parseDate : String → Int) (now : Int)
    (r : FrontendReminder) (tz : String) :
    countdownState parseDate now { r with timezone := tz }
      = countdownState parseDate now r := rfl

/-- C7: the `ReminderCard` offers the Edit control exactly for reminders
whose status is `scheduled`; a completed or failed reminder only gets the
Delete control. -/
theorem editOffered_iff_scheduled (r : FrontendReminder) :
    (CardAction.edit ∈ cardActions r ↔ r.status = Status.scheduled)
    ∧ (r.status ≠ Status.scheduled → cardActions r = [CardAction.delete])
    ∧ CardAction.delete ∈ cardActions r := by
  cases hs : r.status <;> simp_all [cardActions]

/-- Closed witness for `editOffered_iff_scheduled`: the scheduled sample
offers Edit, the failed sample only Delete. -/
theorem editOffered_iff_scheduled_witness :
    CardAction.edit ∈ cardActions sampleCard
    ∧ cardActions sampleCardFailed = [CardAction.delete]
    ∧ CardAction.delete ∈ cardActions sampleCardFailed := by
  have h1 := editOffered_iff_scheduled sampleCard
  have h2 := editOffered_iff_scheduled sampleCardFailed
  exact ⟨h1.1.mpr (by decide), h2.2.1 (by decide), h2.2.2⟩

/-- C10: `parseAsUTC` appends `"Z"` exactly when the input neither ends
with `'Z'` nor contains `'+'`, and passes the input through unchanged
otherwise; in particular a timestamp with a negative numeric UTC offset
also gets `"Z"` appended instead of having its offset honored. -/
theorem parseAsUTC_append_characterization (s : String) :
    (s.data.getLast? ≠ some 'Z' → s.data.contains '+' = false →
      parseAsUTCString s = s ++ "Z")
    ∧ (s.data.getLast? = some 'Z' ∨ s.data.contains '+' = true →
      parseAsUTCString s = s)
    ∧ parseAsUTCString "2025-01-01T09:00:00-05:00"
        = "2025-01-01T09:00:00-05:00Z" := by
  refine ⟨?_, ?_, by decide⟩
  · intro h1 h2
    have h2' : '+' ∉ s.data := by simpa using h2
    simp [parseAsUTCString, h1, h2']
  · intro h
    rcases h with h | h
    · simp [parseAsUTCString, h]
    · have h' : '+' ∈ s.data := by simpa using h
      simp [parseAsUTCString, h']

/-- Closed witness for `parseAsUTC_append_characterization` on concrete
strings: a bare timestamp gets `Z`, a `Z`-suffixed one and a
positive-offset one are unchanged. -/
theorem parseAsUTC_append_characterization_witness :
    parseAsUTCString "2025-01-01T09:00:00" = "2025-01-01T09:00:00" ++ "Z"
    ∧ parseAsUTCString "2025-01-01T09:00:00Z" = "2025-01-01T09:00:00Z"
    ∧ parseAsUTCString "2025-01-01T09:00:00+02:00" = "2025-01-01T09:00:00+02:00" := by
  refine ⟨(parseAsUTC_append_characterization _).1 (by decide) (by decide), ?_, ?_⟩
  · exact (parseAsUTC_append_characterization _).2.1 (Or.inl (by decide))
  · exact (parseAsUTC_append_characterization _).2.1 (Or.inr (by decide))

/-- C5: every phone number the form submits is the result of
`parsePhoneToE164` (a `'+'` followed by exactly the digits of the display
value) and passed the `^\+[1-9]\d{6,14}$` check: leading `'+'`, non-zero
first digit, all digits, 7 to 15 digits in total. -/
theorem submittedPhone_isE164 (othersOk : Bool) (disp p : List Char)
    (h : submitPhone othersOk disp = some p) :
    p = '+' :: disp.filter Char.isDigit
    ∧ e164Valid p = true
    ∧ (∃ c rest, p = '+' :: c :: rest ∧ '1' ≤ c ∧ c ≤ '9'
        ∧ rest.all Char.isDigit = true
        ∧ 7 ≤ (c :: rest).length ∧ (c :: rest).length ≤ 15) := by
  rw [submitPhone] at h
  by_cases hc : (othersOk && (validatePhoneField disp).isNone) = true
  case neg => simp [hc] at h
  case pos =>
    rw [if_pos hc] at h
    have hp : parsePhoneToE164 disp = p := Option.some.inj h
    have hval : validatePhoneField disp = none := by
      have hc' := hc
      simp only [Bool.and_eq_true] at hc'
      exact Option.isNone_iff_eq_none.mp hc'.2
    simp only [validatePhoneField] at hval
    split at hval
    · exact absurd hval (by simp)
    · split at hval
      · exact absurd hval (by simp)
      · rename_i hreq hvne
        have hvalid : e164Valid (parsePhoneToE164 disp) = true := by
          cases hE : e164Valid (parsePhoneToE164 disp) with
          | false => exact absurd hE hvne
          | true => rfl
        by_cases hd : disp.filter Char.isDigit = []
        · rw [parsePhoneToE164] at hvalid
          simp [hd, e164Valid] at hvalid
        · have hform : parsePhoneToE164 disp = '+' :: disp.filter Char.isDigit := by
            simp [parsePhoneToE164, hd]
          obtain ⟨c, rest, hcr⟩ : ∃ c rest, disp.filter Char.isDigit = c :: rest := by
            cases hfd : disp.filter Char.isDigit with
            | nil => exact absurd hfd hd
            | cons c rest => exact ⟨c, rest, rfl⟩
          rw [hform, hcr] at hvalid
          have hparts : ('1' ≤ c ∧ c ≤ '9') ∧ rest.all Char.isDigit = true
              ∧ 6 ≤ rest.length ∧ rest.length ≤ 14 := by
            simpa [e164Valid, and_assoc] using hvalid
          obtain ⟨⟨hc1, hc9⟩, hall, hlen1, hlen2⟩ := hparts
          refine ⟨hp.symm.trans hform, ?_, c, rest, ?_, hc1, hc9, hall, ?_, ?_⟩
          · rw [← hp, hform, hcr]; exact hvalid
          · rw [← hp, hform, hcr]
          · simp [List.length_cons]; omega
          · simp [List.length_cons]; omega

/-- Closed witness for `submittedPhone_isE164` at the placeholder number
of the form. -/
theorem submittedPhone_isE164_witness :
    "+15551234567".toList = '+' :: ("+1 (555) 123-4567".toList.filter Char.isDigit)
    ∧ e164Valid ("+15551234567".toList) = true
    ∧ (∃ c rest, "+15551234567".toList = '+' :: c :: rest ∧ '1' ≤ c ∧ c ≤ '9'
        ∧ rest.all Char.isDigit = true
        ∧ 7 ≤ (c :: rest).length ∧ (c :: rest).length ≤ 15) :=
  submittedPhone_isE164 true ("+1 (555) 123-4567".toList) ("+15551234567".toList)
    (by decide)

/-- Masking keeps the string length. -/
theorem maskLeading_length (l : List Char) : (maskLeading l).length = l.length := by
  induction l with
  | nil => rfl
  | cons c rest ih => simp [maskLeading, ih]

/-- Strings of at most four characters are not masked at all: the
lookahead `(?=.{4})` can never match. -/
theorem maskLeading_short (l : List Char) (h : l.length ≤ 4) : maskLeading l = l := by
  induction l with
  | nil => rfl
  | cons c rest ih =>
    have hr : ¬ (4 ≤ rest.length) := by simp at h; omega
    simp [maskLeading, hr, ih (by simp at h; omega)]

/-- Pointwise behaviour of the masking pass: each position is either
unchanged, or a digit with at least four following characters that became
a bullet. -/
theorem maskLeading_getD (l : List Char) (i : Nat) (d : Char) :
    (maskLeading l).getD i d = l.getD i d
    ∨ ((maskLeading l).getD i d = '•' ∧ (l.getD i d).isDigit = true
        ∧ i + 5 ≤ l.length) := by
  induction l generalizing i with
  | nil => left; rfl
  | cons c rest ih =>
    cases i with
    | zero =>
      by_cases hc : (c.isDigit && decide (4 ≤ rest.length)
          && (rest.take 4).all jsDot) = true
      · right
        have hparts : c.isDigit = true ∧ 4 ≤ rest.length := by
          simp only [Bool.and_eq_true, decide_eq_true_eq] at hc
          exact ⟨hc.1.1, hc.1.2⟩
        refine ⟨?_, ?_, ?_⟩
        · simp [maskLeading, hc]
        · simpa using hparts.1
        · simp; omega
      · left; simp [maskLeading, hc]
    | succ i =>
      have := ih i
      rcases this with h | ⟨h1, h2, h3⟩
      · left; simpa [maskLeading] using h
      · right
        refine ⟨by simpa [maskLeading] using h1, by simpa using h2, by simp; omega⟩

/-- The last four characters of the masked portion are unchanged: a digit
there has fewer than four followers, so the lookahead fails. -/
theorem maskLeading_drop_last4 (l : List Char) :
    (maskLeading l).drop (l.length - 4) = l.drop (l.length - 4) := by
  induction l with
  | nil => rfl
  | cons c rest ih =>
    by_cases h4 : 4 ≤ rest.length
    · have harith : (c :: rest).length - 4 = (rest.length - 4) + 1 := by
        simp; omega
      rw [harith]
      have hdrop : ∀ x : Char, ∀ t : List Char,
          (x :: t).drop ((rest.length - 4) + 1) = t.drop (rest.length - 4) :=
        fun _ _ => rfl
      calc (maskLeading (c :: rest)).drop ((rest.length - 4) + 1)
          = (maskLeading rest).drop (rest.length - 4) := by
            simp only [maskLeading]; exact hdrop _ _
        _ = rest.drop (rest.length - 4) := ih
        _ = (c :: rest).drop ((rest.length - 4) + 1) := (hdrop _ _).symm
    · have hlen : (c :: rest).length ≤ 4 := by simp; omega
      rw [maskLeading_short _ hlen]

/-- C9: `maskPhone` returns inputs of length at most 6 unchanged; longer
inputs keep their length, only digits more than 8 positions from the end
are replaced (by `'•'`), and the last 8 characters of the output equal
the last 8 characters of the input. -/
theorem maskPhone_correct (s : List Char) :
    (s.length ≤ 6 → maskPhone s = s)
    ∧ (maskPhone s).length = s.length
    ∧ (∀ i d, (maskPhone s).getD i d ≠ s.getD i d →
        (maskPhone s).getD i d = '•' ∧ (s.getD i d).isDigit = true
          ∧ i + 9 ≤ s.length)
    ∧ (maskPhone s).drop (s.length - 8) = s.drop (s.length - 8) := by
  by_cases hlen : s.length ≤ 6
  · have hms : maskPhone s = s := by simp [maskPhone, hlen]
    exact ⟨fun _ => hms, by rw [hms], fun i d hne => absurd (by rw [hms]) hne,
      by rw [hms]⟩
  · have hlen7 : 7 ≤ s.length := by omega
    set p := s.take (s.length - 4) with hp
    set suf := s.drop (s.length - 4) with hsuf
    have hm : maskPhone s = maskLeading p ++ suf := by
      rw [maskPhone, if_neg hlen]
    have hps : p ++ suf = s := List.take_append_drop _ _
    have hplen : p.length = s.length - 4 := by
      rw [hp, List.length_take]; omega
    have hmlen : (maskLeading p).length = p.length := maskLeading_length p
    have hslen : p.length + suf.length = s.length := by
      rw [← List.length_append, hps]
    refine ⟨fun h => absurd h hlen, ?_, ?_, ?_⟩
    · rw [hm, List.length_append, hmlen, hslen]
    · intro i d hne
      by_cases hi : i < p.length
      · have hleft : (maskPhone s).getD i d = (maskLeading p).getD i d := by
          rw [hm]; exact List.getD_append _ _ _ _ (by omega)
        have hright : s.getD i d = p.getD i d := by
          rw [← hps]; exact List.getD_append _ _ _ _ hi
        rcases maskLeading_getD p i d with h | ⟨h1, h2, h3⟩
        · exact absurd (by rw [hleft, hright, h]) hne
        · exact ⟨by rw [hleft, h1], by rw [hright]; exact h2, by omega⟩
      · have hleft : (maskPhone s).getD i d = suf.getD (i - p.length) d := by
          rw [hm, List.getD_append_right _ _ _ _ (by omega), hmlen]
        have hright : s.getD i d = suf.getD (i - p.length) d := by
          rw [← hps]; exact List.getD_append_right _ _ _ _ (by omega)
        exact absurd (by rw [hleft, hright]) hne
    · have h8 : s.length - 8 ≤ (maskLeading p).length := by omega
      have h8' : s.length - 8 ≤ p.length := by omega
      have hr : s.drop (s.length - 8) = p.drop (s.length - 8) ++ suf := by
        rw [← List.drop_append_of_le_length h8', hps]
      have harith : s.length - 8 = p.length - 4 := by omega
      rw [hm, List.drop_append_of_le_length h8, hr, harith, maskLeading_drop_last4]

/-- Closed witness for `maskPhone_correct` on a concrete number: a short
input is unchanged, a longer one is bulleted only at position 1 (more
than 8 from the end) and keeps its last 8 characters. -/
theorem maskPhone_correct_witness :
    maskPhone ("+1555".toList) = "+1555".toList
    ∧ ((maskPhone ("+15551234567".toList)).getD 1 '?' = '•'
        ∧ (("+15551234567".toList).getD 1 '?').isDigit = true
        ∧ 1 + 9 ≤ ("+15551234567".toList).length)
    ∧ (maskPhone ("+15551234567".toList)).drop (("+15551234567".toList).length - 8)
        = ("+15551234567".toList).drop (("+15551234567".toList).length - 8) := by
  refine ⟨(maskPhone_correct _).1 (by decide), ?_, (maskPhone_correct _).2.2.2⟩
  exact (maskPhone_correct ("+15551234567".toList)).2.2.1 1 '?' (by decide)

/-- Filtering digits out of an all-digit list is the identity. -/
theorem filter_isDigit_of_all (l : List Char) (h : ∀ c ∈ l, c.isDigit = true) :
    l.filter Char.isDigit = l :=
  List.filter_eq_self.mpr h

/-- Digits surviving `formatPhoneDisplay` are exactly the first eleven
digits of the input: the display format has slots for at most 11 digits
(`1 + 3 + 3 + 4`) and drops the rest. -/
theorem formatPhoneDisplay_digits (s : List Char) :
    (formatPhoneDisplay s).filter Char.isDigit = (s.filter Char.isDigit).take 11 := by
  have hplus : Char.isDigit '+' = false := rfl
  simp only [formatPhoneDisplay]
  set ds := s.filter Char.isDigit with hds
  have hall : ∀ c ∈ ds, c.isDigit = true := fun c hc => (List.mem_filter.mp hc).2
  have hall_take : ∀ n : Nat, ∀ c ∈ ds.take n, c.isDigit = true :=
    fun n c hc => hall c (List.mem_of_mem_take hc)
  have hall_drop : ∀ m : Nat, ∀ c ∈ ds.drop m, c.isDigit = true :=
    fun m c hc => hall c (List.mem_of_mem_drop hc)
  have hall_dt : ∀ m n : Nat, ∀ c ∈ (ds.drop m).take n, c.isDigit = true :=
    fun m n c hc => hall_drop m c (List.mem_of_mem_take hc)
  have hall_tail : ∀ c ∈ ds.tail, c.isDigit = true := by
    rw [← List.drop_one]; exact hall_drop 1
  have hall_tt3 : ∀ c ∈ ds.tail.take 3, c.isDigit = true := by
    rw [← List.drop_one]; exact hall_dt 1 3
  by_cases h0 : ds.length = 0
  · have : ds = [] := List.length_eq_zero.mp h0
    simp [h0, this]
  by_cases h1 : ds.length ≤ 1
  · rw [if_neg h0, if_pos h1]
    have ht : ds.take 11 = ds := List.take_of_length_le (by omega)
    simp [filter_isDigit_of_all ds hall, ht]
  by_cases h4 : ds.length ≤ 4
  · rw [if_neg h0, if_neg h1, if_pos h4]
    have ht : ds.take 11 = ds := List.take_of_length_le (by omega)
    simp [List.filter_append, filter_isDigit_of_all _ (hall_take 1),
      filter_isDigit_of_all _ hall_tail, ht]
    simp only [← List.drop_one]
    exact List.take_append_drop 1 ds
  by_cases h7 : ds.length ≤ 7
  · rw [if_neg h0, if_neg h1, if_neg h4, if_pos h7]
    have ht : ds.take 11 = ds := List.take_of_length_le (by omega)
    simp [List.filter_append, filter_isDigit_of_all _ (hall_take 1),
      filter_isDigit_of_all _ hall_tt3, filter_isDigit_of_all _ (hall_drop 4), ht]
    simp only [← List.drop_one]
    calc ds.take 1 ++ ((ds.drop 1).take 3 ++ ds.drop 4)
        = (ds.take 1 ++ (ds.drop 1).take 3) ++ ds.drop 4 := by
          rw [List.append_assoc]
      _ = ds.take 4 ++ ds.drop 4 := by rw [← List.take_add]
      _ = ds := List.take_append_drop 4 ds
  · rw [if_neg h0, if_neg h1, if_neg h4, if_neg h7]
    simp [List.filter_append, filter_isDigit_of_all _ (hall_take 1),
      filter_isDigit_of_all _ hall_tt3, filter_isDigit_of_all _ (hall_dt 4 3),
      filter_isDigit_of_all _ (hall_dt 7 4)]
    simp only [← List.drop_one]
    calc ds.take 1 ++ ((ds.drop 1).take 3 ++ ((ds.drop 4).take 3 ++ (ds.drop 7).take 4))
        = ((ds.take 1 ++ (ds.drop 1).take 3) ++ (ds.drop 4).take 3)
            ++ (ds.drop 7).take 4 := by simp [List.append_assoc]
      _ = (ds.take 4 ++ (ds.drop 4).take 3) ++ (ds.drop 7).take 4 := by
          rw [← List.take_add]
      _ = ds.take 7 ++ (ds.drop 7).take 4 := by rw [← List.take_add]
      _ = ds.take 11 := by rw [← List.take_add]

/-- C8 (amended): for every input with at least one digit, the
format-then-parse round trip yields `'+'` followed by the first
`min(n, 11)` digits, so any number with twelve or more digits cannot
survive the round trip. -/
theorem roundTrip_truncates (s : List Char) (h : s.filter Char.isDigit ≠ []) :
    parsePhoneToE164 (formatPhoneDisplay s) = '+' :: (s.filter Char.isDigit).take 11
    ∧ (12 ≤ (s.filter Char.isDigit).length →
        parsePhoneToE164 (formatPhoneDisplay s) ≠ '+' :: s.filter Char.isDigit) := by
  have hkey := formatPhoneDisplay_digits s
  have htake_ne : (s.filter Char.isDigit).take 11 ≠ [] := by
    cases hd : s.filter Char.isDigit with
    | nil => exact absurd hd h
    | cons a t => simp
  have hmain : parsePhoneToE164 (formatPhoneDisplay s)
      = '+' :: (s.filter Char.isDigit).take 11 := by
    simp only [parsePhoneToE164]
    rw [hkey, if_neg htake_ne]
  refine ⟨hmain, fun h12 heq => ?_⟩
  rw [hmain] at heq
  have htl : (s.filter Char.isDigit).take 11 = s.filter Char.isDigit :=
    List.tail_eq_of_cons_eq heq
  have : ((s.filter Char.isDigit).take 11).length = (s.filter Char.isDigit).length := by
    rw [htl]
  rw [List.length_take] at this
  omega

/-- Counterexample to C8 as stated: on an input with zero digits the
round trip returns the empty string, not `"+"`. -/
theorem roundTrip_empty_counterexample :
    parsePhoneToE164 (formatPhoneDisplay ([] : List Char))
      ≠ '+' :: (List.filter Char.isDigit ([] : List Char)).take 11 := by decide

/-- Closed witness for `roundTrip_truncates` at a fifteen-digit input
(valid per the E.164 regex, yet truncated to eleven digits). -/
theorem roundTrip_truncates_witness :
    parsePhoneToE164 (formatPhoneDisplay ("123456789012345".toList))
      = '+' :: (("123456789012345".toList).filter Char.isDigit).take 11
    ∧ parsePhoneToE164 (formatPhoneDisplay ("123456789012345".toList))
        ≠ '+' :: ("123456789012345".toList).filter Char.isDigit := by
  refine ⟨(roundTrip_truncates _ (by decide)).1,
    (roundTrip_truncates _ (by decide)).2 (by decide)⟩

/-- C4: `FindDue(now)` returns exactly the reminders that are `Scheduled`
and due (`scheduledAt ≤ now`), sorted by `scheduledAt` ascending, and a
reminder due strictly earlier than another sits strictly earlier in the
dispatch sequence, so it is dispatched no later. -/
theorem findDue_correct (now : Int) (store : List Reminder) (dflt : Reminder) :
    (∀ r, r ∈ findDue now store ↔
      r ∈ store ∧ r.status = Status.scheduled ∧ r.scheduled_at ≤ now)
    ∧ List.Sorted dueLE (findDue now store)
    ∧ (∀ i j, i < (findDue now store).length → j < (findDue now store).length →
        ((findDue now store).getD i dflt).scheduled_at
          < ((findDue now store).getD j dflt).scheduled_at → i < j) := by
  refine ⟨?_, ?_, ?_⟩
  · intro r
    rw [findDue, List.mem_insertionSort, List.mem_filter]
    simp [isDue, and_assoc]
  · exact List.sorted_insertionSort dueLE _
  · intro i j hi hj hlt
    by_contra hij
    push_neg at hij
    rcases Nat.lt_or_ge j i with hji | hji
    · have hs := List.sorted_insertionSort dueLE
        (store.filter (fun r => decide (isDue now r)))
      have hrel := hs.rel_get_of_lt
        (a := ⟨j, by simpa [findDue] using hj⟩)
        (b := ⟨i, by simpa [findDue] using hi⟩) (by simpa using hji)
      have hji' : ((findDue now store).getD j dflt).scheduled_at
          ≤ ((findDue now store).getD i dflt).scheduled_at := by
        rw [List.getD_eq_get _ _ hi, List.getD_eq_get _ _ hj]
        exact hrel
      omega
    · have hij' : i = j := by omega
      rw [hij'] at hlt
      omega

/-- Closed witness for `findDue_correct` on a two-element store given out
of due order: the earlier-due reminder is a member of the result, the
result is sorted, and strictly-smaller due time forces a strictly earlier
dispatch index. -/
theorem findDue_correct_witness :
    sampleRemB ∈ findDue 5 [sampleRem, sampleRemB]
    ∧ List.Sorted dueLE (findDue 5 [sampleRem, sampleRemB])
    ∧ (0 : Nat) < 1 := by
  have h := findDue_correct 5 [sampleRem, sampleRemB] sampleRem
  refine ⟨(h.1 sampleRemB).mpr (by decide), h.2.1, ?_⟩
  exact h.2.2 0 1 (by decide) (by decide) (by decide)

end CallMeReminder
